import Mathlib

/-
Verification of the Hevy-Dash data pipeline (src/app.py) against its
natural-language specification.

Shallow embedding conventions:
* Python JSON values reaching the fetcher are modelled by the inductive
  `Json` (null / string / array / object).  A workout-session object is an
  arbitrary `Json` value from the fetcher's point of view.
* `datetime.date` values are modelled as natural numbers (`Date`); only
  equality and ordering of dates matter to the pipeline.
* Python floats (`weight_kg`, volumes) are modelled as rationals `ℚ`;
  rep counts are naturals.
* A Python `dict.get(k)` returning `None` for a missing or null field is
  modelled by `Option`.
* `datetime.fromisoformat(w["start_time"].replace("Z", "+00:00"))` either
  produces a date or raises `ValueError`; a `Workout`'s `start_time` field
  carries the outcome of that stdlib parse as `Option Date` (`none` means
  the timestamp string does not parse even after the Z-replacement).
  Code that the source runs without a handler is modelled in `Except`.
* pandas `groupby` aggregations sort the group keys ascending (pandas
  default `sort=True`); they are modelled by a sorted-distinct key list
  followed by a per-key aggregate over the filtered rows.
* `print` logging is modelled by returning the list of emitted log lines.
* Chart PNG files written under static/ are modelled by a `StaticFiles`
  record holding, for each file, the data the chart renders (rasterising
  data to pixels is the out-of-scope presentation adapter).
-/

namespace HevyDash

/-! ### JSON values and HTTP responses (fetcher layer) -/

/-- JSON values as seen by `fetch_workouts`.  Numbers and booleans never
occur in the workout-list endpoint's envelope positions, so they are
omitted; session objects are ordinary `obj` values. -/
inductive Json where
  | null : Json
  | str : String → Json
  | arr : List Json → Json
  | obj : List (String × Json) → Json

/-- Python truthiness test `if not data` on a JSON value: `None`, `""`,
`[]` and `{}` are falsy. -/
def Json.isFalsy : Json → Bool
  | .null => true
  | .str s => s = ""
  | .arr l => l.isEmpty
  | .obj l => l.isEmpty

/-- Python `list.extend(data)` iterates `data`: an array yields its
elements, a dict yields its KEYS (as strings), a string yields its
characters as one-character strings.  (`extend(None)` would raise, but
the source's `if not data: break` guard runs first, so the `null` case
is unreachable in `fetch_workouts`.) -/
def Json.pyIter : Json → List Json
  | .null => []
  | .str s => s.toList.map (fun c => Json.str c.toString)
  | .arr l => l
  | .obj l => l.map (fun kv => Json.str kv.fst)

/-- An HTTP response for one page: `status_code`, `text` (used only in the
error log) and the decoded JSON body (`r.json()`, read only when the
status is 200). -/
structure Resp where
  status : Nat
  text : String
  body : Json

/-- `fetch_workouts` (src/app.py lines 22-37).  The environment is the
finite list of responses the upstream returns for pages 1, 2, ...; an
exhausted list stands for the upstream answering every later page with an
empty (falsy) body, on which the loop breaks.  Returns the accumulated
workouts together with the log lines printed (`print("API Error:", r.text)`
joins its arguments with a space). -/
def fetch_workouts : List Resp → List Json × List String
  | [] => ([], [])
  | r :: rest =>
    if r.status ≠ 200 then
      ([], ["API Error: " ++ r.text])
    else if r.body.isFalsy then
      ([], [])
    else
      let acc := fetch_workouts rest
      (r.body.pyIter ++ acc.fst, acc.snd)

/-! ### Normalizer data model (process_workouts layer) -/

/-- Dates: only identity and order matter downstream. -/
abbrev Date := Nat

/-- One set record.  `weight_kg = none` models an absent or JSON-null
`weight_kg` field; `reps = none` models an absent `reps` field. -/
structure SetRecord where
  weight_kg : Option ℚ
  reps : Option ℕ
deriving DecidableEq

/-- One exercise entry.  `primary_muscle_group` is the upstream-supplied
muscle-group field of the documented session shape; `ex.get("sets", [])`
defaulting to an empty list on absence is folded into `sets`. -/
structure ExerciseEntry where
  name : String
  primary_muscle_group : Option String
  sets : List SetRecord
deriving DecidableEq

/-- One workout session.  `start_time` carries the outcome of
`datetime.fromisoformat(raw.replace("Z", "+00:00")).date()`: `some d` when
the raw ISO-8601 timestamp (a trailing literal Z accepted) parses to a
datetime with calendar date `d`, `none` when parsing raises `ValueError`.
`w.get("exercises", [])` defaulting to `[]` is folded into `exercises`. -/
structure Workout where
  start_time : Option Date
  exercises : List ExerciseEntry
deriving DecidableEq

/-- One row of the normalized DataFrame (an Observation). -/
structure Row where
  date : Date
  exercise : String
  weight : ℚ
  reps : ℕ
  volume : ℚ
deriving DecidableEq

/-- The inner set loop of `process_workouts` (lines 52-63): a set whose
`weight_kg` is absent/None emits no row; for a surviving set, absent reps
default to 0 and `volume = weight * reps`. -/
def processSets (date : Date) (name : String) : List SetRecord → List Row
  | [] => []
  | s :: rest =>
    match s.weight_kg with
    | none => processSets date name rest
    | some weight =>
      let reps := s.reps.getD 0
      { date := date, exercise := name, weight := weight, reps := reps,
        volume := weight * reps } :: processSets date name rest

/-- The exercise loop of `process_workouts` (lines 50-63) for one parsed
workout date. -/
def exerciseRows (date : Date) : List ExerciseEntry → List Row
  | [] => []
  | ex :: rest => processSets date ex.name ex.sets ++ exerciseRows date rest

/-- The workout loop of `process_workouts` (lines 48-63).  Parsing the
`start_time` of a workout happens inside the loop with no handler, so the
first unparsable timestamp raises `ValueError` out of the whole batch;
`Except.error` models that propagated exception. -/
def processRows : List Workout → Except String (List Row)
  | [] => .ok []
  | w :: rest =>
    match w.start_time with
    | none => .error "ValueError"
    | some d =>
      match processRows rest with
      | .error e => .error e
      | .ok more => .ok (exerciseRows d w.exercises ++ more)

/-- `process_workouts` (lines 42-66) applied to an already-fetched list of
workouts: an empty fetch yields an empty DataFrame, otherwise the rows
built by the nested loops (or the propagated `ValueError`). -/
def process_workouts (ws : List Workout) : Except String (List Row) :=
  if ws.isEmpty then .ok [] else processRows ws

/-! ### Keyword classifier and muscle-group breakdown (create_muscle_breakdown) -/

/-- Helper for Python's substring test: does `needle` occur as a
contiguous run inside `hay`?  (`"x" in ""` is false, `"" in s` is true,
matching Python.) -/
def listContains (needle : List Char) : List Char → Bool
  | [] => needle.isEmpty
  | c :: t => needle.isPrefixOf (c :: t) || listContains needle t

/-- Python `needle in hay` on strings. -/
def pyIn (needle hay : String) : Bool := listContains needle.toList hay.toList

/-- Python `s.lower()` (the exercise names are ASCII, for which
per-character lowercasing agrees with Python). -/
def pyLower (s : String) : String := String.mk (s.data.map Char.toLower)

/-- The if/elif keyword chain of `create_muscle_breakdown` (lines 136-149)
applied to the already-lowercased exercise name. -/
def classify (ex : String) : String :=
  if pyIn "bench" ex || pyIn "press" ex then "Chest/Shoulders"
  else if pyIn "row" ex || pyIn "pulldown" ex || pyIn "pullup" ex then "Back"
  else if pyIn "curl" ex then "Biceps"
  else if pyIn "extension" ex || pyIn "squat" ex || pyIn "lunge" ex then "Quads"
  else if pyIn "rdl" ex || pyIn "hip" ex || pyIn "deadlift" ex then "Glutes/Hamstrings"
  else if pyIn "calf" ex then "Calves"
  else "Other"

/-- The seven bucket labels `classify` can produce. -/
def muscleLabels : List String :=
  ["Chest/Shoulders", "Back", "Biceps", "Quads", "Glutes/Hamstrings", "Calves", "Other"]

/-- `muscle_map[g] += vol` on the defaultdict(float). -/
def addVol (m : String → ℚ) (g : String) (v : ℚ) : String → ℚ :=
  fun g2 => if g2 = g then m g2 + v else m g2

/-- The row loop of `create_muscle_breakdown` (lines 133-149) threading the
defaultdict. -/
def muscleMapAux : List Row → (String → ℚ) → (String → ℚ)
  | [], m => m
  | r :: rest, m => muscleMapAux rest (addVol m (classify (pyLower r.exercise)) r.volume)

/-- The `muscle_map` defaultdict built by `create_muscle_breakdown`
(lines 132-149), as its lookup function (absent keys read 0.0). -/
def muscle_map (df : List Row) : String → ℚ := muscleMapAux df (fun _ => 0)

/-! ### Date-grouped aggregations (pandas groupby with sorted keys) -/

/-- Insert a date into an ascending duplicate-free date list. -/
def insDate (d : Date) : List Date → List Date
  | [] => [d]
  | x :: rest =>
    if d < x then d :: x :: rest
    else if d = x then x :: rest
    else x :: insDate d rest

/-- The group keys of a pandas `groupby("date")`: the distinct dates of
the rows in ascending order (pandas sorts group keys by default). -/
def groupDates (rows : List Row) : List Date :=
  rows.foldr (fun r acc => insDate r.date acc) []

/-- pandas `.max()` over a float column (the aggregations below only apply
it to nonempty groups; `0` is an arbitrary value for the empty case). -/
def listMaxQ : List ℚ → ℚ
  | [] => 0
  | [x] => x
  | x :: y :: rest => max x (listMaxQ (y :: rest))

/-- `df.groupby("date")["volume"].sum().reset_index()` of
`create_volume_chart` (line 93): per distinct date in ascending order, the
sum of that date's volumes. -/
def df_vol (df : List Row) : List (Date × ℚ) :=
  (groupDates df).map
    (fun d => (d, ((df.filter (fun r => r.date = d)).map Row.volume).sum))

/-- `ex_df = df[df["exercise"] == exercise_name]` of `create_pr_chart`
(line 110). -/
def ex_df (df : List Row) (name : String) : List Row :=
  df.filter (fun r => r.exercise = name)

/-- `ex_df.groupby("date")["weight"].transform("max")` (line 113): the max
weight among the rows sharing a given date. -/
def dateMaxWeight (rows : List Row) (d : Date) : ℚ :=
  listMaxQ ((rows.filter (fun r => r.date = d)).map Row.weight)

/-- `ex_df` with its added `max_weight` column (line 113): each row paired
with the max weight of its date group. -/
def withMaxWeight (rows : List Row) : List (Row × ℚ) :=
  rows.map (fun r => (r, dateMaxWeight rows r.date))

/-- `pr_df = ex_df.groupby("date")["max_weight"].max().reset_index()`
(lines 110-114): filter to the exercise, add the per-date `max_weight`
column, then take the per-date max of that column with ascending keys. -/
def pr_df (df : List Row) (name : String) : List (Date × ℚ) :=
  let exdf := ex_df df name
  let wm := withMaxWeight exdf
  (groupDates exdf).map
    (fun d => (d, listMaxQ ((wm.filter (fun p => p.fst.date = d)).map Prod.snd)))

/-! ### Chart files and the dashboard route -/

/-- The chart PNGs under static/.  Each file holds the data its chart
renders (rendering data to pixels is the out-of-scope presentation
adapter, a pure function); `none` means the file has never been written. -/
structure StaticFiles where
  heatmap : Option (List Row)
  volume_trend : Option (List (Date × ℚ))
  muscle_breakdown : Option (List Row)
  pr_chart : Option (List (Date × ℚ) × String)
deriving DecidableEq

/-- `create_heatmap` (lines 71-85) as a file-system effect: on an empty
DataFrame it returns before writing; otherwise it overwrites heatmap.png
with a render determined by `df`. -/
def create_heatmap (files : StaticFiles) (df : List Row) : StaticFiles :=
  if df.isEmpty then files else { files with heatmap := some df }

/-- `create_volume_chart` (lines 90-102): on an empty DataFrame it returns
before writing; otherwise it overwrites volume_trend.png with the plot of
`df_vol`. -/
def create_volume_chart (files : StaticFiles) (df : List Row) : StaticFiles :=
  if df.isEmpty then files else { files with volume_trend := some (df_vol df) }

/-- `create_muscle_breakdown` (lines 128-158): on an empty DataFrame it
returns before writing; otherwise it overwrites muscle_breakdown.png with
the pie determined by `df` (via `muscle_map df`). -/
def create_muscle_breakdown (files : StaticFiles) (df : List Row) : StaticFiles :=
  if df.isEmpty then files else { files with muscle_breakdown := some df }

/-- `create_pr_chart` (lines 107-123): returns before writing when the
DataFrame is empty or has no rows for the exercise; otherwise overwrites
pr_chart.png with the plot of `pr_df` for that exercise. -/
def create_pr_chart (files : StaticFiles) (df : List Row) (exercise_name : String) :
    StaticFiles :=
  if df.isEmpty then files
  else if (ex_df df exercise_name).isEmpty then files
  else { files with pr_chart := some (pr_df df exercise_name, exercise_name) }

/-- What `render_template("dashboard.html", ...)` receives. -/
structure ViewModel where
  exercises : List String
  selected_exercise : Option String
deriving DecidableEq

/-- Helper for pandas `Series.unique`: distinct values in first-occurrence
order, with an accumulator of values already seen. -/
def uniqueFirstAux : List String → List String → List String
  | [], _ => []
  | x :: rest, seen =>
    if x ∈ seen then uniqueFirstAux rest seen
    else x :: uniqueFirstAux rest (x :: seen)

/-- pandas `df["exercise"].unique()`: distinct values in first-occurrence
order. -/
def uniqueFirst (l : List String) : List String := uniqueFirstAux l []

/-- Ascending insertion into a sorted string list (ties keep the new
element to the right, as a stable sort does). -/
def insStr (s : String) : List String → List String
  | [] => [s]
  | x :: rest => if s < x then s :: x :: rest else x :: insStr s rest

/-- Python `sorted(...)`: ascending lexicographic sort. -/
def sortedStrs (l : List String) : List String := l.foldr insStr []

/-- `df["exercise"].iloc[0]` (only reached when `df` is nonempty). -/
def firstExercise : List Row → String
  | [] => ""
  | r :: _ => r.exercise

/-- The `dashboard` route (lines 164-183), given the DataFrame `df`
produced by `process_workouts` for this request (its `Except.ok` payload;
on `Except.error` Flask would render a 500 page instead), the form's
dropdown value (`none` = field absent) and the current static files.
Python's `form_value or df["exercise"].iloc[0]` falls back when the form
value is falsy (absent or the empty string).  Returns the static files
after the route and the template's view model. -/
def dashboard (files : StaticFiles) (form : Option String) (df : List Row) :
    StaticFiles × ViewModel :=
  if df.isEmpty then
    (files, { exercises := [], selected_exercise := none })
  else
    let f1 := create_heatmap files df
    let f2 := create_volume_chart f1 df
    let f3 := create_muscle_breakdown f2 df
    let sel :=
      match form with
      | some s => if s = "" then firstExercise df else s
      | none => firstExercise df
    let f4 := create_pr_chart f3 df sel
    (f4, { exercises := sortedStrs (uniqueFirst (df.map Row.exercise)),
           selected_exercise := some sel })

/-- Statement helper (not from the source): rewrite every exercise's
upstream muscle-group field by `f`, leaving everything else intact.  Used
to state that the pipeline never reads that field. -/
def setMuscleFields (f : Option String → Option String) (w : Workout) : Workout :=
  { w with
    exercises := w.exercises.map fun ex =>
      { ex with primary_muscle_group := f ex.primary_muscle_group } }

/-! ### Helper lemmas: normalizer -/

/-- The set loop keeps exactly the sets with a present weight, pairing
each with its defaulted reps and computed volume. -/
theorem processSets_eq_filterMap (d : Date) (name : String) (sets : List SetRecord) :
    processSets d name sets =
      sets.filterMap (fun s => s.weight_kg.map (fun wt =>
        { date := d, exercise := name, weight := wt, reps := s.reps.getD 0,
          volume := wt * (s.reps.getD 0 : ℕ) })) := by
  induction sets with
  | nil => rfl
  | cons s rest ih =>
    cases hw : s.weight_kg with
    | none => simp [processSets, List.filterMap_cons, hw, ih]
    | some wt => simp [processSets, List.filterMap_cons, hw, ih]

/-- Every row of the exercise loop comes from one of the exercises. -/
theorem mem_exerciseRows {r : Row} {d : Date} {exs : List ExerciseEntry}
    (h : r ∈ exerciseRows d exs) : ∃ ex ∈ exs, r ∈ processSets d ex.name ex.sets := by
  induction exs with
  | nil => simp [exerciseRows] at h
  | cons ex rest ih =>
    simp only [exerciseRows, List.mem_append] at h
    rcases h with h | h
    · exact ⟨ex, List.mem_cons_self _ _, h⟩
    · obtain ⟨ex0, hmem, hr⟩ := ih h
      exact ⟨ex0, List.mem_cons_of_mem _ hmem, hr⟩

/-- Every row of a successful batch comes from a workout with a parsed
date. -/
theorem mem_processRows {ws : List Workout} {rows : List Row} {r : Row}
    (hok : processRows ws = .ok rows) (hr : r ∈ rows) :
    ∃ w ∈ ws, ∃ d, w.start_time = some d ∧ r ∈ exerciseRows d w.exercises := by
  induction ws generalizing rows with
  | nil =>
    simp only [processRows, Except.ok.injEq] at hok
    subst hok
    simp at hr
  | cons w rest ih =>
    simp only [processRows] at hok
    cases hst : w.start_time with
    | none => rw [hst] at hok; cases hok
    | some d =>
      rw [hst] at hok
      cases hrest : processRows rest with
      | error e => rw [hrest] at hok; cases hok
      | ok more =>
        rw [hrest] at hok
        rcases hok with ⟨⟩
        rcases List.mem_append.mp hr with h | h
        · exact ⟨w, List.mem_cons_self _ _, d, hst, h⟩
        · obtain ⟨w0, hw0, d0, hd0, hr0⟩ := ih hrest h
          exact ⟨w0, List.mem_cons_of_mem _ hw0, d0, hd0, hr0⟩

/-- A batch containing a workout with an unparsable timestamp propagates
`ValueError`. -/
theorem processRows_error_of_bad {ws : List Workout}
    (h : ∃ w ∈ ws, w.start_time = none) : processRows ws = .error "ValueError" := by
  induction ws with
  | nil => simp at h
  | cons w rest ih =>
    obtain ⟨w0, hmem, hnone⟩ := h
    rcases List.mem_cons.mp hmem with rfl | hmem0
    · simp [processRows, hnone]
    · cases hst : w.start_time with
      | none => simp [processRows, hst]
      | some d => simp [processRows, hst, ih ⟨w0, hmem0, hnone⟩]

/-! ### Helper lemmas: classifier and defaultdict -/

/-- The keyword chain always lands in one of the seven labels. -/
theorem classify_mem (s : String) : classify s ∈ muscleLabels := by
  unfold classify muscleLabels
  split_ifs <;> simp

/-- The defaultdict built by the row loop reads, at each label, the start
value plus the total volume of the rows classified to that label. -/
theorem muscleMapAux_eq (df : List Row) (m : String → ℚ) (g : String) :
    muscleMapAux df m g =
      m g + ((df.filter (fun r => classify (pyLower r.exercise) = g)).map Row.volume).sum := by
  induction df generalizing m with
  | nil => simp [muscleMapAux]
  | cons r rest ih =>
    simp only [muscleMapAux]
    rw [ih]
    by_cases h : classify (pyLower r.exercise) = g
    · simp [addVol, List.filter_cons, h]
      ring
    · simp [addVol, List.filter_cons, h, Ne.symm h]

/-- `muscle_map` as a per-label filtered volume sum. -/
theorem muscle_map_eq (df : List Row) (g : String) :
    muscle_map df g =
      ((df.filter (fun r => classify (pyLower r.exercise) = g)).map Row.volume).sum := by
  rw [muscle_map, muscleMapAux_eq, zero_add]

/-! ### Helper lemmas: sums over group keys -/

/-- Pointwise sums split. -/
theorem sum_map_add {α : Type} (ks : List α) (f g : α → ℚ) :
    (ks.map (fun k => f k + g k)).sum = (ks.map f).sum + (ks.map g).sum := by
  induction ks with
  | nil => simp
  | cons k rest ih =>
    simp only [List.map_cons, List.sum_cons, ih]
    ring

/-- Summing an indicator over a duplicate-free key list that contains the
key yields the value. -/
theorem sum_map_ite {α : Type} [DecidableEq α] {ks : List α} {a : α} (v : ℚ)
    (hnd : ks.Nodup) (ha : a ∈ ks) :
    (ks.map (fun k => if a = k then v else 0)).sum = v := by
  induction ks with
  | nil => simp at ha
  | cons k rest ih =>
    rcases List.mem_cons.mp ha with rfl | ha2
    · have hz : ((rest.map (fun k => if a = k then v else 0))).sum = 0 := by
        apply List.sum_eq_zero
        intro x hx
        obtain ⟨k2, hk2, rfl⟩ := List.mem_map.mp hx
        exact if_neg (by rintro rfl; exact (List.nodup_cons.mp hnd).1 hk2)
      simp [List.map_cons, List.sum_cons, hz]
    · have hne : a ≠ k := by rintro rfl; exact (List.nodup_cons.mp hnd).1 ha2
      simp only [List.map_cons, List.sum_cons, if_neg hne,
        ih (List.nodup_cons.mp hnd).2 ha2, zero_add]

/-- Conservation of volume under grouping: summing the per-key filtered
totals over a duplicate-free key list covering every row gives the total
volume. -/
theorem groupSum {α : Type} [DecidableEq α] (key : Row → α) (ks : List α) (rows : List Row)
    (hnd : ks.Nodup) (hcov : ∀ r ∈ rows, key r ∈ ks) :
    (ks.map (fun k => ((rows.filter (fun r => key r = k)).map Row.volume).sum)).sum
      = (rows.map Row.volume).sum := by
  induction rows with
  | nil => simp
  | cons r rest ih =>
    have hstep : ∀ k, ((List.filter (fun r2 => decide (key r2 = k)) (r :: rest)).map
        Row.volume).sum
        = (if key r = k then r.volume else 0)
          + ((rest.filter (fun r2 => key r2 = k)).map Row.volume).sum := by
      intro k
      by_cases h : key r = k
      · simp [List.filter_cons, h]
      · simp [List.filter_cons, h]
    have hmap : (ks.map (fun k =>
          ((List.filter (fun r2 => decide (key r2 = k)) (r :: rest)).map Row.volume).sum))
        = ks.map (fun k => (if key r = k then r.volume else 0)
          + ((rest.filter (fun r2 => key r2 = k)).map Row.volume).sum) :=
      List.map_congr_left (fun k _ => hstep k)
    rw [hmap, sum_map_add, sum_map_ite r.volume hnd (hcov r (List.mem_cons_self _ _)),
      ih (fun r2 h2 => hcov r2 (List.mem_cons_of_mem _ h2)), List.map_cons, List.sum_cons]

/-! ### Helper lemmas: sorted distinct date keys and list max -/

theorem mem_insDate {a d : Date} {l : List Date} : a ∈ insDate d l ↔ a = d ∨ a ∈ l := by
  induction l with
  | nil => simp [insDate]
  | cons x rest ih =>
    simp only [insDate]
    split_ifs with h1 h2
    · simp [List.mem_cons]
    · subst h2
      simp [List.mem_cons]
    · simp only [List.mem_cons, ih]
      tauto

theorem pairwise_insDate {d : Date} {l : List Date} (h : l.Pairwise (· < ·)) :
    (insDate d l).Pairwise (· < ·) := by
  induction l with
  | nil => simp [insDate]
  | cons x rest ih =>
    obtain ⟨hx, hrest⟩ := List.pairwise_cons.mp h
    simp only [insDate]
    split_ifs with h1 h2
    · refine List.pairwise_cons.mpr ⟨fun y hy => ?_, h⟩
      rcases List.mem_cons.mp hy with rfl | hy
      · exact h1
      · exact lt_trans h1 (hx y hy)
    · exact h
    · have hxd : x < d := lt_of_le_of_ne (not_lt.mp h1) (fun he => h2 he.symm)
      refine List.pairwise_cons.mpr ⟨fun y hy => ?_, ih hrest⟩
      rcases mem_insDate.mp hy with rfl | hy
      · exact hxd
      · exact hx y hy

theorem mem_groupDates {rows : List Row} {d : Date} :
    d ∈ groupDates rows ↔ ∃ r ∈ rows, r.date = d := by
  induction rows with
  | nil => simp [groupDates]
  | cons r rest ih =>
    have hstep : groupDates (r :: rest) = insDate r.date (groupDates rest) := rfl
    rw [hstep, mem_insDate, ih]
    constructor
    · rintro (rfl | ⟨r0, h0, rfl⟩)
      · exact ⟨r, List.mem_cons_self _ _, rfl⟩
      · exact ⟨r0, List.mem_cons_of_mem _ h0, rfl⟩
    · rintro ⟨r0, h0, rfl⟩
      rcases List.mem_cons.mp h0 with rfl | h0
      · exact Or.inl rfl
      · exact Or.inr ⟨r0, h0, rfl⟩

theorem pairwise_groupDates (rows : List Row) : (groupDates rows).Pairwise (· < ·) := by
  induction rows with
  | nil => simp [groupDates]
  | cons r rest ih => exact pairwise_insDate ih

theorem nodup_groupDates (rows : List Row) : (groupDates rows).Nodup :=
  (pairwise_groupDates rows).imp (fun h => Nat.ne_of_lt h)

theorem listMaxQ_mem {l : List ℚ} (h : l ≠ []) : listMaxQ l ∈ l := by
  induction l with
  | nil => exact absurd rfl h
  | cons x t ih =>
    cases t with
    | nil => simp [listMaxQ]
    | cons y rest =>
      have hmem := ih (by simp)
      simp only [listMaxQ]
      rcases max_choice x (listMaxQ (y :: rest)) with h1 | h1 <;> rw [h1]
      · exact List.mem_cons_self _ _
      · exact List.mem_cons_of_mem _ hmem

theorem le_listMaxQ {l : List ℚ} {x : ℚ} (h : x ∈ l) : x ≤ listMaxQ l := by
  induction l with
  | nil => simp at h
  | cons a t ih =>
    cases t with
    | nil =>
      rcases List.mem_cons.mp h with rfl | h
      · simp [listMaxQ]
      · simp at h
    | cons y rest =>
      simp only [listMaxQ]
      rcases List.mem_cons.mp h with rfl | h
      · exact le_max_left _ _
      · exact le_trans (ih h) (le_max_right _ _)

theorem listMaxQ_const {l : List ℚ} {c : ℚ} (hall : ∀ x ∈ l, x = c) (hne : l ≠ []) :
    listMaxQ l = c := by
  induction l with
  | nil => exact absurd rfl hne
  | cons x t ih =>
    cases t with
    | nil => simpa [listMaxQ] using hall x (List.mem_cons_self _ _)
    | cons y rest =>
      have hx : x = c := hall x (List.mem_cons_self _ _)
      have ht : listMaxQ (y :: rest) = c :=
        ih (fun z hz => hall z (List.mem_cons_of_mem _ hz)) (by simp)
      simp [listMaxQ, hx, ht]

/-! ### Helper lemmas: the PR series -/

theorem mem_ex_df {df : List Row} {name : String} {r : Row} :
    r ∈ ex_df df name ↔ r ∈ df ∧ r.exercise = name := by
  simp [ex_df, List.mem_filter]

/-- The per-date group max is attained by one of that date's rows. -/
theorem dateMaxWeight_attained {rows : List Row} {d : Date}
    (h : ∃ r ∈ rows, r.date = d) :
    ∃ r ∈ rows, r.date = d ∧ r.weight = dateMaxWeight rows d := by
  obtain ⟨r0, hr0, hd0⟩ := h
  have hfil : r0 ∈ rows.filter (fun r => r.date = d) :=
    List.mem_filter.mpr ⟨hr0, by simp [hd0]⟩
  have hne : ((rows.filter (fun r => r.date = d)).map Row.weight) ≠ [] :=
    List.ne_nil_of_mem (List.mem_map_of_mem _ hfil)
  obtain ⟨r1, hr1, hw1⟩ := List.mem_map.mp (listMaxQ_mem hne)
  obtain ⟨hmem, hdec⟩ := List.mem_filter.mp hr1
  exact ⟨r1, hmem, by simpa using hdec, hw1⟩

/-- The per-date group max bounds every weight of that date. -/
theorem le_dateMaxWeight {rows : List Row} {d : Date} {r : Row}
    (hr : r ∈ rows) (hd : r.date = d) : r.weight ≤ dateMaxWeight rows d := by
  apply le_listMaxQ
  exact List.mem_map_of_mem _ (List.mem_filter.mpr ⟨hr, by simp [hd]⟩)

/-- The `max_weight` column restricted to one date group is the plain
weight column's group max repeated. -/
theorem withMax_filter_eq (exdf : List Row) (d : Date) :
    ((withMaxWeight exdf).filter (fun p => p.fst.date = d)).map Prod.snd
      = (exdf.filter (fun r => r.date = d)).map (fun r => dateMaxWeight exdf r.date) := by
  unfold withMaxWeight
  rw [List.filter_map, List.map_map]
  rfl

/-- Taking the group max of the constant `max_weight` column gives the
group max of the weights. -/
theorem listMax_withMax (exdf : List Row) {d : Date} (hd : d ∈ groupDates exdf) :
    listMaxQ (((withMaxWeight exdf).filter (fun p => p.fst.date = d)).map Prod.snd)
      = dateMaxWeight exdf d := by
  rw [withMax_filter_eq]
  obtain ⟨r0, hr0, hd0⟩ := mem_groupDates.mp hd
  apply listMaxQ_const
  · intro x hx
    obtain ⟨r1, hr1, rfl⟩ := List.mem_map.mp hx
    have hdate : r1.date = d := by simpa using (List.mem_filter.mp hr1).2
    rw [hdate]
  · have hfil : r0 ∈ exdf.filter (fun r => r.date = d) :=
      List.mem_filter.mpr ⟨hr0, by simp [hd0]⟩
    exact List.ne_nil_of_mem (List.mem_map_of_mem _ hfil)

/-- Membership in the PR series: one entry per distinct date of the
exercise's rows, carrying that date's weight max. -/
theorem pr_df_entry {df : List Row} {name : String} {d : Date} {w : ℚ} :
    (d, w) ∈ pr_df df name ↔
      d ∈ groupDates (ex_df df name) ∧ w = dateMaxWeight (ex_df df name) d := by
  unfold pr_df
  simp only [List.mem_map, Prod.mk.injEq]
  constructor
  · rintro ⟨d0, hd0, rfl, rfl⟩
    exact ⟨hd0, listMax_withMax _ hd0⟩
  · rintro ⟨hd, rfl⟩
    exact ⟨d, hd, rfl, listMax_withMax _ hd⟩

/-! ### Claim theorems -/

/-- C1: when a page returns a non-success status after a run of
successful non-empty pages, `fetch_workouts` aborts pagination there
(later responses are never consulted), logs the failure, and returns
exactly the workouts accumulated from the earlier pages; the function is
total on its inputs (never raises on this path) and the empty
accumulation (`good = []`) is a valid result. -/
theorem fetch_aborts_on_error (good : List Resp) (bad : Resp) (rest : List Resp)
    (hgood : ∀ r ∈ good, r.status = 200 ∧ r.body.isFalsy = false)
    (hbad : bad.status ≠ 200) :
    fetch_workouts (good ++ bad :: rest) =
      ((good.map (fun r => r.body.pyIter)).flatten, ["API Error: " ++ bad.text]) := by
  induction good with
  | nil => simp [fetch_workouts, hbad]
  | cons r grest ih =>
    obtain ⟨h200, hfalsy⟩ := hgood r (List.mem_cons_self _ _)
    simp [fetch_workouts, h200, hfalsy,
      ih (fun r2 h2 => hgood r2 (List.mem_cons_of_mem _ h2))]

/-- C1 witness: page 1 delivers 10 sessions, page 2 answers HTTP 500;
exactly those 10 sessions are returned together with the error log. -/
theorem fetch_aborts_on_error_witness :
    ((∀ r ∈ [Resp.mk 200 "ok" (Json.arr (List.replicate 10 (Json.obj [("id", Json.null)])))],
        r.status = 200 ∧ r.body.isFalsy = false) ∧
      (Resp.mk 500 "Internal Server Error" Json.null).status ≠ 200) ∧
    fetch_workouts
        [Resp.mk 200 "ok" (Json.arr (List.replicate 10 (Json.obj [("id", Json.null)]))),
         Resp.mk 500 "Internal Server Error" Json.null] =
      (([Resp.mk 200 "ok" (Json.arr (List.replicate 10 (Json.obj [("id", Json.null)])))].map
          (fun r => r.body.pyIter)).flatten,
        ["API Error: " ++ "Internal Server Error"]) :=
  ⟨⟨by decide, by decide⟩,
    fetch_aborts_on_error
      [Resp.mk 200 "ok" (Json.arr (List.replicate 10 (Json.obj [("id", Json.null)])))]
      (Resp.mk 500 "Internal Server Error" Json.null) [] (by decide) (by decide)⟩

/-- C2 counterexample: after a dashboard render on one row of data, a
second render whose fetch comes back empty leaves the chart files at
their previous value but does NOT leave the reader-visible state at its
previous value: the rendered exercise list and selection are blanked, so
readers do not keep seeing the last-known-good metrics (and no in-memory
dataset cache exists to keep). -/
theorem dashboard_empty_refresh_counterexample :
    (dashboard
        (dashboard ⟨none, none, none, none⟩ none
            [{ date := 1, exercise := "Bench Press", weight := 100, reps := 5,
               volume := 500 }]).fst
        none []).fst =
      (dashboard ⟨none, none, none, none⟩ none
          [{ date := 1, exercise := "Bench Press", weight := 100, reps := 5,
             volume := 500 }]).fst
    ∧ (dashboard
        (dashboard ⟨none, none, none, none⟩ none
            [{ date := 1, exercise := "Bench Press", weight := 100, reps := 5,
               volume := 500 }]).fst
        none []).snd ≠
      (dashboard ⟨none, none, none, none⟩ none
          [{ date := 1, exercise := "Bench Press", weight := 100, reps := 5,
             volume := 500 }]).snd :=
  ⟨rfl, by decide⟩

/-- C2 amended: when the fetch yields an empty dataset, the route leaves
every chart file unchanged (stale chart images persist because the chart
writers return before writing), but there is no cached dataset or metric
state: the rendered exercise list is reset to empty and the selected
exercise to none. -/
theorem dashboard_empty_is_noop_on_files (files : StaticFiles) (form : Option String) :
    process_workouts [] = .ok [] ∧
    dashboard files form [] = (files, { exercises := [], selected_exercise := none }) :=
  ⟨rfl, rfl⟩

/-- C3 counterexample: a batch holding one well-formed session followed by
one session with an unparsable start timestamp does not drop the bad
session and keep the good one — the whole batch aborts with the propagated
`ValueError`, and in particular the result is not the good session's
observation list. -/
theorem unparsable_date_counterexample :
    process_workouts
        [{ start_time := some 1,
           exercises := [{ name := "Bench", primary_muscle_group := none,
                           sets := [{ weight_kg := some 80, reps := some 10 }] }] },
         { start_time := none, exercises := [] }] = .error "ValueError" ∧
      (Except.error "ValueError" : Except String (List Row)) ≠
        .ok [{ date := 1, exercise := "Bench", weight := 80, reps := 10, volume := 800 }] :=
  ⟨rfl, fun h => Except.noConfusion h⟩

/-- C3 amended: a session with an unparsable start timestamp is not
dropped with a warning; the `ValueError` raised by the parse aborts the
whole batch, so no Observations at all are produced for any session. -/
theorem unparsable_date_aborts_batch (ws : List Workout)
    (h : ∃ w ∈ ws, w.start_time = none) :
    process_workouts ws = .error "ValueError" := by
  cases ws with
  | nil => simp at h
  | cons w rest => simpa [process_workouts] using processRows_error_of_bad h

/-- C3 amended witness: a one-session batch with an unparsable timestamp
aborts with `ValueError`. -/
theorem unparsable_date_aborts_batch_witness :
    (∃ w ∈ [({ start_time := none, exercises := [] } : Workout)], w.start_time = none) ∧
    process_workouts [({ start_time := none, exercises := [] } : Workout)] =
      .error "ValueError" :=
  ⟨⟨_, List.mem_cons_self _ _, rfl⟩,
    unparsable_date_aborts_batch _ ⟨_, List.mem_cons_self _ _, rfl⟩⟩

/-- C4 counterexample: an object response with an `items` array is not
unwrapped — `list.extend` iterates the dict's keys, so the accumulated
result is the key string "items", not the contained session. -/
theorem envelope_counterexample :
    (fetch_workouts
        [Resp.mk 200 "ok" (Json.obj [("items", Json.arr [Json.obj [("id", Json.str "w1")]])]),
         Resp.mk 200 "ok" (Json.arr [])]).fst = [Json.str "items"] ∧
      Json.str "items" ≠ Json.obj [("id", Json.str "w1")] :=
  ⟨rfl, fun h => Json.noConfusion h⟩

/-- C4 amended: only the bare-array response shape contributes its
sessions to the accumulation; a non-empty object response contributes its
keys (the string "items" for the documented envelope) instead of the
sessions of its `items` array. -/
theorem fetch_shapes_amended :
    (∀ (l : List Json) (t : String) (rest : List Resp), l ≠ [] →
        fetch_workouts (Resp.mk 200 t (Json.arr l) :: rest) =
          (l ++ (fetch_workouts rest).fst, (fetch_workouts rest).snd)) ∧
    (∀ (kvs : List (String × Json)) (t : String) (rest : List Resp), kvs ≠ [] →
        fetch_workouts (Resp.mk 200 t (Json.obj kvs) :: rest) =
          (kvs.map (fun kv => Json.str kv.fst) ++ (fetch_workouts rest).fst,
            (fetch_workouts rest).snd)) := by
  constructor
  · intro l t rest hl
    simp [fetch_workouts, Json.isFalsy, Json.pyIter, hl]
  · intro kvs t rest hk
    simp [fetch_workouts, Json.isFalsy, Json.pyIter, hk]

/-- C4 amended witness: a one-element array page and a one-key object page
behave as stated. -/
theorem fetch_shapes_amended_witness :
    (([Json.null] : List Json) ≠ [] ∧
      fetch_workouts [Resp.mk 200 "" (Json.arr [Json.null])] =
        ([Json.null] ++ (fetch_workouts []).fst, (fetch_workouts []).snd)) ∧
    (([("items", Json.null)] : List (String × Json)) ≠ [] ∧
      fetch_workouts [Resp.mk 200 "" (Json.obj [("items", Json.null)])] =
        ([("items", Json.null)].map (fun kv => Json.str kv.fst) ++ (fetch_workouts []).fst,
          (fetch_workouts []).snd)) :=
  ⟨⟨by simp, fetch_shapes_amended.1 [Json.null] "" [] (by simp)⟩,
    ⟨by simp, fetch_shapes_amended.2 [("items", Json.null)] "" [] (by simp)⟩⟩

/-- C5: every Observation of a successful batch has volume = reps × weight
exactly, and — under the data-model precondition that present weights are
nonnegative — nonnegative volume. -/
theorem volume_eq_reps_mul_weight (ws : List Workout) (rows : List Row)
    (hok : process_workouts ws = .ok rows)
    (hw : ∀ w ∈ ws, ∀ ex ∈ w.exercises, ∀ s ∈ ex.sets, 0 ≤ s.weight_kg.getD 0) :
    ∀ r ∈ rows, r.volume = (r.reps : ℚ) * r.weight ∧ 0 ≤ r.volume := by
  intro r hr
  cases ws with
  | nil =>
    simp only [process_workouts, List.isEmpty_nil, if_pos, Except.ok.injEq] at hok
    subst hok
    simp at hr
  | cons w0 wrest =>
    rw [show process_workouts (w0 :: wrest) = processRows (w0 :: wrest) from rfl] at hok
    obtain ⟨w, hwmem, d, hd, hrow⟩ := mem_processRows hok hr
    obtain ⟨ex, hexmem, hrs⟩ := mem_exerciseRows hrow
    rw [processSets_eq_filterMap] at hrs
    obtain ⟨s, hsmem, hsome⟩ := List.mem_filterMap.mp hrs
    obtain ⟨wt, hwt, hrw⟩ := Option.map_eq_some'.mp hsome
    subst hrw
    have h0 : 0 ≤ wt := by
      have := hw w hwmem ex hexmem s hsmem
      rwa [hwt, Option.getD_some] at this
    exact ⟨mul_comm wt _, mul_nonneg h0 (Nat.cast_nonneg _)⟩

/-- C5 witness: a concrete one-set batch with nonnegative weight. -/
theorem volume_eq_reps_mul_weight_witness :
    (process_workouts
        [{ start_time := some 2,
           exercises := [{ name := "Squat", primary_muscle_group := none,
                           sets := [{ weight_kg := some 80, reps := some 1 }] }] }] =
      .ok [{ date := 2, exercise := "Squat", weight := 80, reps := 1, volume := 80 }] ∧
      (∀ w ∈ [({ start_time := some 2,
                 exercises := [{ name := "Squat", primary_muscle_group := none,
                                 sets := [{ weight_kg := some 80,
                                            reps := some 1 }] }] } : Workout)],
        ∀ ex ∈ w.exercises, ∀ s ∈ ex.sets, 0 ≤ s.weight_kg.getD 0)) ∧
    ∀ r ∈ [({ date := 2, exercise := "Squat", weight := 80, reps := 1,
              volume := 80 } : Row)], r.volume = (r.reps : ℚ) * r.weight ∧ 0 ≤ r.volume :=
  ⟨⟨by simp [process_workouts, processRows, exerciseRows, processSets], by decide⟩,
    volume_eq_reps_mul_weight
      [{ start_time := some 2,
         exercises := [{ name := "Squat", primary_muscle_group := none,
                         sets := [{ weight_kg := some 80, reps := some 1 }] }] }]
      [{ date := 2, exercise := "Squat", weight := 80, reps := 1, volume := 80 }]
      (by simp [process_workouts, processRows, exerciseRows, processSets]) (by decide)⟩

/-- C6: a set with an absent/None weight yields no Observation while its
siblings survive, and an absent reps field defaults to 0 on surviving
sets — the set loop is exactly a filterMap keeping sets with a present
weight; in particular an exercise with one weightless set and one set of
weight 80 and reps 10 yields exactly one Observation of volume 800. -/
theorem missing_weight_skips_set :
    (∀ (d : Date) (name : String) (sets : List SetRecord),
        processSets d name sets =
          sets.filterMap (fun s => s.weight_kg.map (fun wt =>
            { date := d, exercise := name, weight := wt, reps := s.reps.getD 0,
              volume := wt * (s.reps.getD 0 : ℕ) }))) ∧
    process_workouts
        [{ start_time := some 1,
           exercises := [{ name := "Bench", primary_muscle_group := none,
                           sets := [{ weight_kg := none, reps := some 10 },
                                    { weight_kg := some 80, reps := some 10 }] }] }] =
      .ok [{ date := 1, exercise := "Bench", weight := 80, reps := 10, volume := 800 }] := by
  refine ⟨processSets_eq_filterMap, ?_⟩
  simp [process_workouts, processRows, exerciseRows, processSets]
  norm_num

/-- C7 counterexample: an exercise carrying the upstream muscle-group
field "Chest" is nevertheless aggregated by the keyword rules on its name:
its volume lands in the "Other" bucket and the "Chest" bucket stays 0, so
the upstream field is not preferred. -/
theorem muscle_field_counterexample :
    process_workouts
        [{ start_time := some 1,
           exercises := [{ name := "Cable Fly", primary_muscle_group := some "Chest",
                           sets := [{ weight_kg := some 10, reps := some 5 }] }] }] =
      .ok [{ date := 1, exercise := "Cable Fly", weight := 10, reps := 5, volume := 50 }] ∧
    muscle_map [{ date := 1, exercise := "Cable Fly", weight := 10, reps := 5,
                  volume := 50 }] "Chest" = 0 ∧
    muscle_map [{ date := 1, exercise := "Cable Fly", weight := 10, reps := 5,
                  volume := 50 }] "Other" = 50 := by
  refine ⟨?_, ?_, ?_⟩
  · simp [process_workouts, processRows, exerciseRows, processSets]
    norm_num
  · simp [muscle_map, muscleMapAux, addVol,
      show classify (pyLower "Cable Fly") = "Other" by decide]
  · simp [muscle_map, muscleMapAux, addVol,
      show classify (pyLower "Cable Fly") = "Other" by decide]

/-- C7 amended: the upstream-supplied muscle-group field is ignored by the
whole pipeline (the normalized rows are invariant under arbitrary rewrites
of that field), and aggregation always buckets a row's volume by the
keyword classification of its lowercased exercise name, with "Other" as
the no-match fallback — never by the upstream field. -/
theorem muscle_field_ignored :
    (∀ (f : Option String → Option String) (ws : List Workout),
        process_workouts (ws.map (setMuscleFields f)) = process_workouts ws) ∧
    (∀ (df : List Row) (g : String),
        muscle_map df g =
          ((df.filter (fun r => classify (pyLower r.exercise) = g)).map Row.volume).sum) := by
  constructor
  · intro f ws
    have hex : ∀ (d : Date) (exs : List ExerciseEntry),
        exerciseRows d (exs.map fun ex =>
          { ex with primary_muscle_group := f ex.primary_muscle_group }) =
        exerciseRows d exs := by
      intro d exs
      induction exs with
      | nil => rfl
      | cons ex erest ihe => simp [exerciseRows, ihe]
    have hrows : ∀ ws2 : List Workout,
        processRows (ws2.map (setMuscleFields f)) = processRows ws2 := by
      intro ws2
      induction ws2 with
      | nil => rfl
      | cons w rest ih =>
        cases hst : w.start_time with
        | none => simp [processRows, setMuscleFields, hst]
        | some d => simp [processRows, setMuscleFields, hst, ih, hex]
    cases ws with
    | nil => rfl
    | cons w rest => simpa [process_workouts] using hrows (w :: rest)
  · intro df g
    exact muscle_map_eq df g

/-- C8: the PR series for an exercise has strictly increasing dates (hence
exactly one entry per date, ties collapsing into it), and an entry (d, w)
exists iff w is attained by an Observation of that exercise on d and
bounds every such Observation's weight — i.e. each entry carries the true
per-date maximum weight. -/
theorem pr_series_sorted_max (df : List Row) (name : String) :
    (pr_df df name).Pairwise (fun p q => p.fst < q.fst) ∧
    ∀ (d : Date) (w : ℚ), (d, w) ∈ pr_df df name ↔
      ((∃ r ∈ df, r.exercise = name ∧ r.date = d ∧ r.weight = w) ∧
        ∀ r ∈ df, r.exercise = name → r.date = d → r.weight ≤ w) := by
  constructor
  · unfold pr_df
    exact List.Pairwise.map _ (fun a b hab => hab) (pairwise_groupDates (ex_df df name))
  · intro d w
    rw [pr_df_entry]
    constructor
    · rintro ⟨hd, rfl⟩
      obtain ⟨r1, hr1, hd1, hw1⟩ := dateMaxWeight_attained (mem_groupDates.mp hd)
      obtain ⟨hr1df, hr1ex⟩ := mem_ex_df.mp hr1
      refine ⟨⟨r1, hr1df, hr1ex, hd1, hw1⟩, ?_⟩
      intro r hr hex hdate
      exact le_dateMaxWeight (mem_ex_df.mpr ⟨hr, hex⟩) hdate
    · rintro ⟨⟨r0, hr0, hex0, hd0, hw0⟩, hub⟩
      have hd : d ∈ groupDates (ex_df df name) :=
        mem_groupDates.mpr ⟨r0, mem_ex_df.mpr ⟨hr0, hex0⟩, hd0⟩
      refine ⟨hd, ?_⟩
      obtain ⟨r1, hr1, hd1, hw1⟩ := dateMaxWeight_attained (mem_groupDates.mp hd)
      obtain ⟨hr1df, hr1ex⟩ := mem_ex_df.mp hr1
      have h1 : dateMaxWeight (ex_df df name) d ≤ w := hw1 ▸ hub r1 hr1df hr1ex hd1
      have h2 : w ≤ dateMaxWeight (ex_df df name) d :=
        hw0 ▸ le_dateMaxWeight (mem_ex_df.mpr ⟨hr0, hex0⟩) hd0
      exact le_antisymm h2 h1

/-- C9: conservation of volume for the volume-over-time aggregation: the
per-period (per-date) totals summed across all period keys equal the sum
of all Observation volumes. -/
theorem volume_conservation (df : List Row) :
    ((df_vol df).map Prod.snd).sum = (df.map Row.volume).sum := by
  unfold df_vol
  rw [List.map_map]
  exact groupSum Row.date (groupDates df) df (nodup_groupDates df)
    (fun r hr => mem_groupDates.mpr ⟨r, hr, rfl⟩)

/-- C10: the keyword classification is a total function of the lowercased
exercise name, so each row's volume is counted in exactly one bucket (the
filtered-sum characterization) and the seven bucket totals sum to the
total volume of all Observations. -/
theorem muscle_breakdown_conservation (df : List Row) :
    (∀ g : String, muscle_map df g =
        ((df.filter (fun r => classify (pyLower r.exercise) = g)).map Row.volume).sum) ∧
    (muscleLabels.map (muscle_map df)).sum = (df.map Row.volume).sum := by
  refine ⟨muscle_map_eq df, ?_⟩
  have hmap : muscleLabels.map (muscle_map df) =
      muscleLabels.map (fun g =>
        ((df.filter (fun r => classify (pyLower r.exercise) = g)).map Row.volume).sum) :=
    List.map_congr_left (fun g _ => muscle_map_eq df g)
  rw [hmap]
  exact groupSum (fun r => classify (pyLower r.exercise)) muscleLabels df
    (by decide) (fun r _ => classify_mem _)

end HevyDash
